import Mathlib

/-!
Verification of the SQL safety gate of the Azure-OpenAI-PostgreSQL chat
application.  The Python sources (src/utils.py, src/security.py,
src/database.py, src/app.py) are shallowly embedded: strings are `String`
(lists of characters), the regular-expression searches of the source are
embedded as executable character-list scanners with the same semantics
(ASCII case folding, ASCII word/space/digit classes), and fallible code
returns `Option`.
-/

/-! # Definitions: the embedded program -/

/-! ## Character classes (ASCII models of Python's regex classes) -/

/-- Model of the regex class `\w` (`[A-Za-z0-9_]` in the ASCII range). -/
def isWordChar (c : Char) : Bool := c.isAlphanum || c == '_'

/-- Model of the regex class `\s` and of the characters removed by
Python's `str.strip()` (ASCII range). -/
def isSpaceChar (c : Char) : Bool :=
  c == ' ' || c == '\t' || c == '\n' || c == '\r' || c == '\x0b' || c == '\x0c'

/-! ## Python string primitives -/

/-- `str.lstrip()` on a character list. -/
def lstripL (cs : List Char) : List Char := cs.dropWhile isSpaceChar

/-- `str.rstrip()` on a character list. -/
def rstripL (cs : List Char) : List Char := (cs.reverse.dropWhile isSpaceChar).reverse

/-- `str.strip()` on a character list. -/
def stripL (cs : List Char) : List Char := rstripL (lstripL cs)

/-- Python's `str.strip()`. -/
def pyStrip (s : String) : String := ⟨stripL s.data⟩

/-- Python's `str.rstrip(';')` (removes every trailing semicolon). -/
def rstripSemiL (cs : List Char) : List Char := (cs.reverse.dropWhile (· == ';')).reverse

/-! ## Generic regex-search scaffolding

`re.search` tries every start position; a leading `\b` in a pattern holds
at a position whose preceding character is absent or not a word character
(every pattern used below starts with a word character, so the boundary
reduces to that condition).  `scanAux m prev cs` scans `cs` left to right
carrying the previous character `prev`, testing the position-local
matcher `m` at each start position. -/

/-- Does a leading `\b` hold, given the character before the position? -/
def boundaryBefore : Option Char → Bool
  | none => true
  | some c => !isWordChar c

/-- Scan every start position, testing matcher `m` where a leading word
boundary holds. -/
def scanAux (m : List Char → Bool) : Option Char → List Char → Bool
  | _, [] => false
  | prev, c :: rest => (boundaryBefore prev && m (c :: rest)) || scanAux m (some c) rest

/-- Scan every start position with no boundary requirement. -/
def scanPos (m : List Char → Bool) : List Char → Bool
  | [] => false
  | c :: rest => m (c :: rest) || scanPos m rest

/-- Case-insensitively consume the pattern characters `ks` from the front
of `cs`, returning the remainder on success. -/
def startsCI : List Char → List Char → Option (List Char)
  | [], cs => some cs
  | _ :: _, [] => none
  | k :: ks, c :: cs => if c.toUpper = k.toUpper then startsCI ks cs else none

/-- Case-insensitive substring search (a pattern with no `\b` anchors). -/
def containsSubCI (pat : List Char) : List Char → Bool
  | [] => (startsCI pat []).isSome
  | c :: rest => (startsCI pat (c :: rest)).isSome || containsSubCI pat rest

/-- Is the head of the list the character `c`? -/
def headIs (c : Char) : List Char → Bool
  | [] => false
  | d :: _ => d == c

/-- Consume one or more space characters (`\s+`), maximally. -/
def spaces1 : List Char → Option (List Char)
  | [] => none
  | c :: rest => if isSpaceChar c then some (rest.dropWhile isSpaceChar) else none

/-- Consume one or more digits (`\d+`), maximally. -/
def digits1 : List Char → Option (List Char)
  | [] => none
  | c :: rest => if c.isDigit then some (rest.dropWhile Char.isDigit) else none

/-! ## Whole-word matching (patterns of the form `\bKEYWORD\b`) -/

/-- Does a trailing `\b` hold at the start of the remainder `cs`? -/
def wordEndOk : List Char → Bool
  | [] => true
  | c :: _ => !isWordChar c

/-- Case-insensitively match the keyword `kw` here, followed by a word
boundary. -/
def matchWordHere : List Char → List Char → Bool
  | [], cs => wordEndOk cs
  | _ :: _, [] => false
  | k :: ks, c :: cs => (c.toUpper = k.toUpper) && matchWordHere ks cs

/-- `re.search(r'\bKW\b', s, re.IGNORECASE) is not None` on character lists. -/
def containsWordL (kw : List Char) (cs : List Char) : Bool :=
  scanAux (matchWordHere kw) none cs

/-- `re.search(r'\bKW\b', s, re.IGNORECASE) is not None`. -/
def containsWord (kw : String) (s : String) : Bool := containsWordL kw.data s.data

/-! ## utils.py: the deny-list scanner `_contains_dangerous_keywords` -/

/-- The 24 deny-listed keywords of `_contains_dangerous_keywords`
(src/utils.py lines 127-134), in source order. -/
def dangerousKeywords : List String :=
  ["INSERT", "UPDATE", "DELETE", "DROP",
   "CREATE", "ALTER", "TRUNCATE", "EXEC",
   "EXECUTE", "CALL", "MERGE", "GRANT",
   "REVOKE", "COMMIT", "ROLLBACK", "SAVEPOINT",
   "LOCK", "UNLOCK", "SET", "RESET",
   "SHOW", "DESCRIBE", "EXPLAIN", "ANALYZE"]

/-- `_contains_dangerous_keywords` (src/utils.py lines 117-140): true iff
some deny-listed keyword occurs as a whole word, case-insensitively. -/
def contains_dangerous_keywords (s : String) : Bool :=
  dangerousKeywords.any (fun kw => containsWord kw s)

/-! ## utils.py: `_ensure_limit_clause` -/

/-- The characters of the keyword `LIMIT`. -/
def limitChars : List Char := ['L', 'I', 'M', 'I', 'T']

/-- Position-local matcher for the pattern `LIMIT\s+\d+` (after the
leading `\b` has been checked by `scanAux`). -/
def limitHere (cs : List Char) : Bool :=
  match startsCI limitChars cs with
  | some rest =>
      match rest with
      | [] => false
      | c :: rest2 => isSpaceChar c && afterSpacesDigit rest2
  | none => false
where
  /-- After at least one space: accept a digit now or skip further spaces. -/
  afterSpacesDigit : List Char → Bool
    | [] => false
    | c :: cs => c.isDigit || (isSpaceChar c && afterSpacesDigit cs)

/-- `re.search(r'\bLIMIT\s+\d+', s, re.IGNORECASE) is not None` on
character lists (src/utils.py line 153). -/
def hasLimitL (cs : List Char) : Bool := scanAux limitHere none cs

/-- The ten characters appended by `_ensure_limit_clause`. -/
def limitSuffix : List Char := [' ', 'L', 'I', 'M', 'I', 'T', ' ', '1', '0', '0']

/-- `_ensure_limit_clause` (src/utils.py lines 142-157) on character
lists: return unchanged when a `LIMIT <n>` clause is present, else strip
trailing semicolons and append a space and `LIMIT 100`. -/
def ensureLimitL (cs : List Char) : List Char :=
  if hasLimitL cs then cs else rstripSemiL cs ++ limitSuffix

/-- `_ensure_limit_clause` (src/utils.py lines 142-157). -/
def ensure_limit_clause (s : String) : String := ⟨ensureLimitL s.data⟩

/-! ## utils.py: `_is_select_statement` and `sanitize_sql` -/

/-- The characters of the keyword `SELECT`. -/
def selectChars : List Char := ['S', 'E', 'L', 'E', 'C', 'T']

/-- `_is_select_statement` (src/utils.py lines 95-115), modelled on the
statement's text: sqlparse's `flatten()` yields the lexed tokens, the
whitespace (and comment) tokens are skipped, and the first remaining
token's uppercase value must equal `SELECT`.  The embedding skips leading
whitespace and takes the first maximal run of word characters as that
first token (comments are not modelled; the inputs considered carry
none). -/
def is_select_statement (s : String) : Bool :=
  ((s.data.dropWhile isSpaceChar).takeWhile isWordChar).map Char.toUpper = selectChars

/-- Models `sqlparse.format(sql, reindent=True, keyword_case='upper',
identifier_case='lower', strip_comments=True)` (src/utils.py lines
78-84).  That call re-arranges whitespace, normalises letter case of
keywords/identifiers and removes comments; it neither adds nor removes
statements, keywords or `LIMIT` clauses.  The embedding restricts
attention to inputs that are already in the normal form (uppercase
keywords, lowercase identifiers, no comments), on which the
transformation is modelled as the identity. -/
def formatSqlL (cs : List Char) : List Char := cs

/-- `sanitize_sql` (src/utils.py lines 46-93): reject the empty string,
reject unless the first statement is classified SELECT, reject on any
deny-listed keyword, else format, ensure a LIMIT clause, and strip. -/
def sanitize_sql (s : String) : Option String :=
  if s.isEmpty then none
  else if !is_select_statement s then none
  else if contains_dangerous_keywords s then none
  else some ⟨stripL (ensureLimitL (formatSqlL s.data))⟩

/-! ## Statement counting (models sqlparse.parse statement splitting) -/

/-- Split a character list at every semicolon (the separator sqlparse
uses to split a script into statements). -/
def splitOnSemi : List Char → List (List Char)
  | [] => [[]]
  | c :: rest =>
      if c = ';' then [] :: splitOnSemi rest
      else
        match splitOnSemi rest with
        | [] => [[c]]
        | seg :: segs => (c :: seg) :: segs

/-- The number of statements in a SQL text: semicolon-separated segments
that contain a non-space character (sqlparse.parse returns one statement
object per such segment). -/
def statementCount (s : String) : Nat :=
  ((splitOnSemi s.data).filter (fun seg => seg.any (fun c => !isSpaceChar c))).length

/-! ## Declarative characterisation of the scanners

The recursive scanners above are related to declarative occurrence
predicates, stated as explicit decompositions of the text.  These are the
specification-level readings of the regex searches. -/

/-- The condition a leading `\b` imposes on the text `pre` before the
occurrence, scanning having started with previous character `prev`. -/
def BoundaryOkP (prev : Option Char) (pre : List Char) : Prop :=
  match pre.getLast? with
  | none => boundaryBefore prev = true
  | some c => isWordChar c = false

/-- Declarative occurrence of a whole-word, case-insensitive keyword:
the text splits as `pre ++ mid ++ post` where `mid` equals the keyword
up to case and word boundaries hold on both sides. -/
def WordOccurs (kw cs : List Char) : Prop :=
  ∃ pre mid post, cs = pre ++ mid ++ post ∧
    mid.map Char.toUpper = kw.map Char.toUpper ∧
    BoundaryOkP none pre ∧ wordEndOk post = true

/-- Declarative occurrence of a `LIMIT <n>` clause (the regex
`\bLIMIT\s+\d+` of src/utils.py line 153): the text splits as
`pre ++ kw ++ sp ++ d :: post` where `kw` spells LIMIT up to case, a word
boundary holds before it, `sp` is one or more spaces and `d` a digit. -/
def LimitOccurs (cs : List Char) : Prop :=
  ∃ pre kw sp d post, cs = pre ++ kw ++ sp ++ d :: post ∧
    kw.map Char.toUpper = limitChars ∧
    sp ≠ [] ∧ (∀ c ∈ sp, isSpaceChar c = true) ∧
    d.isDigit = true ∧
    BoundaryOkP none pre

/-- `str.rstrip(';')` as a `String` operation. -/
def pyRstripSemi (s : String) : String := ⟨rstripSemiL s.data⟩

/-! ## Measuring the numeric value of a LIMIT clause -/

/-- The number denoted by a run of decimal digits. -/
def digitsToNat (ds : List Char) : Nat := ds.foldl (fun a c => 10 * a + (c.toNat - 48)) 0

/-- The numeric value of a `LIMIT <n>` clause starting here, if any. -/
def limitValueHere (cs : List Char) : Option Nat :=
  match startsCI limitChars cs with
  | some rest =>
      match spaces1 rest with
      | some rest2 =>
          let ds := rest2.takeWhile Char.isDigit
          if ds.isEmpty then none else some (digitsToNat ds)
      | none => none
  | none => none

/-- Does the text contain a `LIMIT <n>` clause with `n > bound`? -/
def limitExceeds (bound : Nat) (s : String) : Bool :=
  scanAux
    (fun cs => match limitValueHere cs with
      | some n => decide (n > bound)
      | none => false)
    none s.data

/-! ## utils.py: `validate_input` (the chat pipeline's input gate) -/

/-- Find the first `>` (the regex step `[^>]*>`) and return the
remainder after it. -/
def afterFirstGt : List Char → Option (List Char)
  | [] => none
  | c :: rest => if c = '>' then some rest else afterFirstGt rest

/-- Search for `</script>` reachable without crossing a newline (the
regex step `.*?</script>`, `.` not matching a newline). -/
def findCloseUtils : List Char → Bool
  | [] => false
  | c :: rest =>
      (startsCI ['<', '/', 's', 'c', 'r', 'i', 'p', 't', '>'] (c :: rest)).isSome ||
        (!(c == '\n') && findCloseUtils rest)

/-- Position-local matcher for `<script[^>]*>.*?</script>`. -/
def utilsScriptHere (cs : List Char) : Bool :=
  match startsCI ['<', 's', 'c', 'r', 'i', 'p', 't'] cs with
  | some r =>
      match afterFirstGt r with
      | some r2 => findCloseUtils r2
      | none => false
  | none => false

/-- Position-local matcher for `on\w+\s*=` (an event-handler attribute). -/
def eventHandlerHere (cs : List Char) : Bool :=
  match startsCI ['o', 'n'] cs with
  | some r =>
      let run := r.takeWhile isWordChar
      !run.isEmpty && headIs '=' ((r.drop run.length).dropWhile isSpaceChar)
  | none => false

/-- The four dangerous patterns of `validate_input` (src/utils.py lines
32-37): script-tag pair, `javascript:` URL, `vbscript:` URL,
event-handler attribute; all searched case-insensitively. -/
def dangerous_pattern_hit (s : String) : Bool :=
  scanPos utilsScriptHere s.data ||
  containsSubCI ['j', 'a', 'v', 'a', 's', 'c', 'r', 'i', 'p', 't', ':'] s.data ||
  containsSubCI ['v', 'b', 's', 'c', 'r', 'i', 'p', 't', ':'] s.data ||
  scanPos eventHandlerHere s.data

/-- `validate_input` (src/utils.py lines 13-44): reject empty input,
strip it, reject when empty or longer than 1000 characters, reject on any
of the four dangerous patterns. -/
def validate_input (s : String) : Bool :=
  if s.isEmpty then false
  else
    let cleaned := pyStrip s
    if cleaned.length = 0 ∨ cleaned.length > 1000 then false
    else !dangerous_pattern_hit cleaned

/-- The `/api/chat` input gate (src/app.py lines 97-105): the raw JSON
`message` field is stripped and must pass `validate_input`; exactly the
accepted stripped message is what reaches the LLM translator. -/
def chat_accepts_message (raw : String) : Bool := validate_input (pyStrip raw)

/-! ## security.py: the Input Threat Scanner (`SecurityManager.validate_input`) -/

/-- The validation result dictionary of `SecurityManager.validate_input`
(src/security.py lines 182-186). -/
structure ValidationResult where
  valid : Bool
  sanitized : String
  warnings : List String
deriving DecidableEq

/-- The bare SQL keywords of the scanner's first injection pattern
(src/security.py line 42). -/
def sqlKeywords : List String :=
  ["union", "select", "insert", "update", "delete",
   "drop", "create", "alter", "exec", "execute"]

/-- Injection pattern 1: a bare SQL keyword as a whole word. -/
def sqlPattern1 (s : String) : Bool := sqlKeywords.any (fun kw => containsWord kw s)

/-- Injection pattern 2: a comment marker (src/security.py line 43). -/
def sqlPattern2 (s : String) : Bool :=
  containsSubCI ['-', '-'] s.data || containsSubCI ['#'] s.data ||
  containsSubCI ['/', '*'] s.data || containsSubCI ['*', '/'] s.data

/-- Consume `or` or `and`, case-insensitively (the alternation
`(or|and)`; the first characters differ, so the alternation is
deterministic). -/
def orAndRest (cs : List Char) : Option (List Char) :=
  match startsCI ['o', 'r'] cs with
  | some r => some r
  | none => startsCI ['a', 'n', 'd'] cs

/-- Is the head of the list a digit? -/
def headIsDigit : List Char → Bool
  | [] => false
  | d :: _ => d.isDigit

/-- Position-local matcher for `(or|and)\s+\d+\s*=\s*\d+` (a numeric
tautology such as `or 1=1`), after the leading `\b`. -/
def tautNumHere (cs : List Char) : Bool :=
  match orAndRest cs with
  | none => false
  | some r =>
      match spaces1 r with
      | none => false
      | some r2 =>
          match digits1 r2 with
          | none => false
          | some r3 =>
              match r3.dropWhile isSpaceChar with
              | [] => false
              | c :: r4 => c == '=' && headIsDigit (r4.dropWhile isSpaceChar)

/-- Injection pattern 3 (src/security.py line 44). -/
def sqlPattern3 (s : String) : Bool := scanAux tautNumHere none s.data

/-- A single- or double-quote character. -/
def isQuote (c : Char) : Bool := c == Char.ofNat 39 || c == Char.ofNat 34

/-- Search for a closing quote reachable without crossing a newline (the
step `.*['"]`, `.` not matching a newline). -/
def findQuoteNoNL : List Char → Bool
  | [] => false
  | c :: rest => isQuote c || (!(c == '\n') && findQuoteNoNL rest)

/-- Position-local matcher for `(or|and)\s+['"].*['"]` (a quoted
tautology), after the leading `\b`. -/
def tautStrHere (cs : List Char) : Bool :=
  match orAndRest cs with
  | none => false
  | some r =>
      match spaces1 r with
      | none => false
      | some r2 =>
          match r2 with
          | [] => false
          | c :: r3 => isQuote c && findQuoteNoNL r3

/-- Injection pattern 4 (src/security.py line 45). -/
def sqlPattern4 (s : String) : Bool := scanAux tautStrHere none s.data

/-- Injection pattern 5: a statement separator `;`, `||` or `&&`
(src/security.py line 46). -/
def sqlPattern5 (s : String) : Bool :=
  containsSubCI [';'] s.data || containsSubCI ['|', '|'] s.data ||
  containsSubCI ['&', '&'] s.data

/-- Does any of the five SQL-injection patterns match?  (The source
iterates the pattern list and breaks on the first match; one warning is
appended iff some pattern matches.) -/
def sql_injection_hit (s : String) : Bool :=
  sqlPattern1 s || sqlPattern2 s || sqlPattern3 s || sqlPattern4 s || sqlPattern5 s

/-- The characters of `script`. -/
def scriptChars : List Char := ['s', 'c', 'r', 'i', 'p', 't']

/-- Position-local matcher for `<\s*/\s*script\s*>` (a closing script
tag with optional spaces). -/
def closeScriptXHere (cs : List Char) : Bool :=
  match cs with
  | [] => false
  | c :: rest =>
      c == '<' &&
        (match rest.dropWhile isSpaceChar with
         | [] => false
         | d :: r2 =>
             d == '/' &&
               (match startsCI scriptChars (r2.dropWhile isSpaceChar) with
                | some r3 => headIs '>' (r3.dropWhile isSpaceChar)
                | none => false))

/-- Search for the closing script tag without crossing a newline. -/
def findCloseX : List Char → Bool
  | [] => false
  | c :: rest => closeScriptXHere (c :: rest) || (!(c == '\n') && findCloseX rest)

/-- Position-local matcher for
`<\s*script[^>]*>.*?<\s*/\s*script\s*>` (src/security.py line 51). -/
def xssScriptHere (cs : List Char) : Bool :=
  match cs with
  | [] => false
  | c :: rest =>
      c == '<' &&
        (match startsCI scriptChars (rest.dropWhile isSpaceChar) with
         | some r2 =>
             (match afterFirstGt r2 with
              | some r3 => findCloseX r3
              | none => false)
         | none => false)

/-- Position-local matcher for `javascript\s*:` (src/security.py line 52). -/
def xssJavascriptHere (cs : List Char) : Bool :=
  match startsCI ['j', 'a', 'v', 'a', 's', 'c', 'r', 'i', 'p', 't'] cs with
  | some r => headIs ':' (r.dropWhile isSpaceChar)
  | none => false

/-- Position-local matcher for `<\s*TAG[^>]*>` (iframe/object/embed,
src/security.py lines 54-56). -/
def openTagHere (tag : List Char) (cs : List Char) : Bool :=
  match cs with
  | [] => false
  | c :: rest =>
      c == '<' &&
        (match startsCI tag (rest.dropWhile isSpaceChar) with
         | some r => (afterFirstGt r).isSome
         | none => false)

/-- Does any of the six XSS patterns match?  (One warning is appended iff
some pattern matches.) -/
def xss_hit (s : String) : Bool :=
  scanPos xssScriptHere s.data ||
  scanPos xssJavascriptHere s.data ||
  scanPos eventHandlerHere s.data ||
  scanPos (openTagHere ['i', 'f', 'r', 'a', 'm', 'e']) s.data ||
  scanPos (openTagHere ['o', 'b', 'j', 'e', 'c', 't']) s.data ||
  scanPos (openTagHere ['e', 'm', 'b', 'e', 'd']) s.data

/-- The length-check warning text (src/security.py line 191). -/
def lengthWarning (max_length : Nat) : String :=
  "Input exceeds maximum length of " ++ toString max_length ++ " characters"

/-- The SQL-injection warning text (src/security.py line 198). -/
def sqlWarning : String := "Potential SQL injection detected"

/-- The XSS warning text (src/security.py line 206). -/
def xssWarning : String := "Potential XSS attack detected"

/-- Is `c` one of the characters removed by the sanitising substitution
`re.sub(r'[<>"\']', '', ...)` (src/security.py line 213)? -/
def isStrippedChar (c : Char) : Bool :=
  c == '<' || c == '>' || c == Char.ofNat 34 || c == Char.ofNat 39

/-- The sanitising substitution applied to valid input: strip the text
and remove angle brackets and quotes. -/
def removeDangerous (s : String) : String :=
  ⟨(stripL s.data).filter (fun c => !isStrippedChar c)⟩

/-- `SecurityManager.validate_input` (src/security.py lines 171-215):
the result starts as valid with the stripped text; an over-long input
returns immediately with only the length warning; otherwise the
SQL-injection patterns and then the XSS patterns are checked (each
family appends at most one warning), and only a still-valid input has
its dangerous characters removed. -/
def security_validate_input (input_text : String) (max_length : Nat) : ValidationResult :=
  if input_text.length > max_length then
    { valid := false
      sanitized := pyStrip input_text
      warnings := [lengthWarning max_length] }
  else
    { valid := !sql_injection_hit input_text && !xss_hit input_text
      sanitized :=
        if !sql_injection_hit input_text && !xss_hit input_text then
          removeDangerous input_text
        else pyStrip input_text
      warnings :=
        (if sql_injection_hit input_text then [sqlWarning] else []) ++
        (if xss_hit input_text then [xssWarning] else []) }

/-! ## security.py: session-token validation -/

/-- The JWT payload written by `generate_session_token`
(src/security.py lines 79-84); times are Unix seconds. -/
structure TokenPayload where
  user_id : String
  iat : Int
  exp : Int
  session_id : String
deriving DecidableEq

/-- A presented session token: its decoded payload together with whether
its HS256 signature verifies under the server's secret. -/
structure SessionToken where
  payload : TokenPayload
  sigValid : Bool
deriving DecidableEq

/-- The failure modes of `jwt.decode`. -/
inductive JwtDecodeError where
  | expiredSignature
  | invalidToken
deriving DecidableEq

/-- Models `jwt.decode(token, secret, algorithms=['HS256'])` at
wall-clock time `now`: InvalidTokenError when the signature (or
algorithm) does not verify, ExpiredSignatureError when the exp claim is
not in the future (PyJWT's default zero leeway). -/
def jwtDecode (now : Int) (t : SessionToken) : Except JwtDecodeError TokenPayload :=
  if !t.sigValid then .error .invalidToken
  else if t.payload.exp ≤ now then .error .expiredSignature
  else .ok t.payload

/-- `SecurityManager.validate_session_token` (src/security.py lines
94-119): decode (signature + library expiry check), then independently
re-check wall-clock expiry; both decode errors are caught and turned
into `none`. -/
def validate_session_token (now : Int) (t : SessionToken) : Option TokenPayload :=
  match jwtDecode now t with
  | .error _ => none
  | .ok payload => if now > payload.exp then none else some payload

/-! ## database.py: `DatabaseManager.execute_query` -/

/-- What the driver reports for an executed statement: the cursor's
column description and fetched rows, or a raised error
(`psycopg2.Error` or any other exception). -/
inductive DriverOutcome (α : Type) where
  | ok : List String → List (List α) → DriverOutcome α
  | err : String → DriverOutcome α
deriving DecidableEq

/-- `DatabaseManager.execute_query` (src/database.py lines 87-128):
convert each fetched row to a field-name→value mapping
(`dict(zip(column_names, row))`); every driver-level error is caught and
the sentinel `None` returned instead of raising. -/
def execute_query {α : Type} (outcome : DriverOutcome α) :
    Option (List (List (String × α))) :=
  match outcome with
  | .err _ => none
  | .ok columnNames rows => some (rows.map (fun row => columnNames.zip row))

/-- The chat route's treatment of the execution step (src/app.py lines
135-141): the sentinel `None` becomes the user-facing failure, any
returned row list (empty included) proceeds as a success. -/
def chat_execute_step {α : Type} (outcome : DriverOutcome α) :
    Except String (List (List (String × α))) :=
  match execute_query outcome with
  | none => .error "Failed to execute database query."
  | some rows => .ok rows

/-! # Lemmas -/

lemma getLast?_cons_of_ne_nil (c : Char) {l : List Char} (h : l ≠ []) :
    (c :: l).getLast? = l.getLast? := by
  cases l with
  | nil => exact absurd rfl h
  | cons d t => simp [List.getLast?]

lemma boundaryOkP_cons (prev : Option Char) (c : Char) (pre : List Char) :
    BoundaryOkP prev (c :: pre) ↔ BoundaryOkP (some c) pre := by
  cases pre with
  | nil =>
      simp only [BoundaryOkP, List.getLast?, boundaryBefore]
      constructor
      · intro h
        simpa using h
      · intro h
        simpa using h
  | cons d t =>
      rw [BoundaryOkP, getLast?_cons_of_ne_nil c (by simp)]
      rfl

/-- Correctness of the position scanner: `scanAux m prev cs` succeeds
exactly when the text splits as `pre ++ suf` with the boundary condition
holding before `suf` and the local matcher succeeding on `suf`. -/
lemma scanAux_iff (m : List Char → Bool) (hm : m [] = false) :
    ∀ (cs : List Char) (prev : Option Char),
      scanAux m prev cs = true ↔
        ∃ pre suf, cs = pre ++ suf ∧ BoundaryOkP prev pre ∧ m suf = true := by
  intro cs
  induction cs with
  | nil =>
      intro prev
      simp only [scanAux]
      constructor
      · intro h
        exact absurd h (by simp)
      · rintro ⟨pre, suf, heq, _, hms⟩
        have hsuf : suf = [] := (List.append_eq_nil.mp heq.symm).2
        rw [hsuf] at hms
        rw [hm] at hms
        exact absurd hms (by simp)
  | cons c rest ih =>
      intro prev
      simp only [scanAux, Bool.or_eq_true, Bool.and_eq_true]
      constructor
      · rintro (⟨hb, hmc⟩ | hrec)
        · exact ⟨[], c :: rest, rfl, by simpa [BoundaryOkP, List.getLast?] using hb, hmc⟩
        · obtain ⟨pre, suf, heq, hbk, hms⟩ := (ih (some c)).mp hrec
          exact ⟨c :: pre, suf, by simp [heq], (boundaryOkP_cons prev c pre).mpr hbk, hms⟩
      · rintro ⟨pre, suf, heq, hbk, hms⟩
        cases pre with
        | nil =>
            left
            refine ⟨?_, ?_⟩
            · simpa [BoundaryOkP, List.getLast?] using hbk
            · simpa using heq ▸ hms
        | cons p pre' =>
            right
            have hc : p = c := by
              have := heq
              simp only [List.cons_append] at this
              exact (List.cons.injEq .. ▸ this).1.symm
            have hrest : rest = pre' ++ suf := by
              have := heq
              simp only [List.cons_append] at this
              exact (List.cons.injEq .. ▸ this).2
            refine (ih (some c)).mpr ⟨pre', suf, hrest, ?_, hms⟩
            have := (boundaryOkP_cons prev p pre').mp hbk
            rwa [hc] at this

lemma matchWordHere_iff (kw : List Char) :
    ∀ cs, matchWordHere kw cs = true ↔
      ∃ mid post, cs = mid ++ post ∧
        mid.map Char.toUpper = kw.map Char.toUpper ∧ wordEndOk post = true := by
  induction kw with
  | nil =>
      intro cs
      simp only [matchWordHere, List.map_nil]
      constructor
      · intro h
        exact ⟨[], cs, rfl, by simp, h⟩
      · rintro ⟨mid, post, heq, hmap, hend⟩
        have : mid = [] := by simpa using List.map_eq_nil_iff.mp hmap
        subst this
        simpa [heq]
  | cons k ks ih =>
      intro cs
      cases cs with
      | nil =>
          simp only [matchWordHere]
          constructor
          · intro h
            exact absurd h (by simp)
          · rintro ⟨mid, post, heq, hmap, _⟩
            have hmid : mid = [] := (List.append_eq_nil.mp heq.symm).1
            rw [hmid] at hmap
            simp at hmap
      | cons c cs' =>
          simp only [matchWordHere, Bool.and_eq_true, decide_eq_true_eq]
          constructor
          · rintro ⟨hck, hrec⟩
            obtain ⟨mid, post, heq, hmap, hend⟩ := (ih cs').mp hrec
            exact ⟨c :: mid, post, by simp [heq], by simp [hmap, hck], hend⟩
          · rintro ⟨mid, post, heq, hmap, hend⟩
            cases mid with
            | nil => simp at hmap
            | cons d mid' =>
                simp only [List.cons_append] at heq
                have hd : d = c := ((List.cons.injEq .. ▸ heq).1).symm
                subst hd
                have hcs' : cs' = mid' ++ post := (List.cons.injEq .. ▸ heq).2
                simp only [List.map_cons] at hmap
                have h1 : d.toUpper = k.toUpper := (List.cons.injEq .. ▸ hmap).1
                have h2 : mid'.map Char.toUpper = ks.map Char.toUpper :=
                  (List.cons.injEq .. ▸ hmap).2
                exact ⟨h1, (ih cs').mpr ⟨mid', post, hcs', h2, hend⟩⟩

lemma matchWordHere_nil_eq_false {k : Char} {ks : List Char} :
    matchWordHere (k :: ks) [] = false := rfl

/-- The whole-word scanner agrees with the declarative occurrence
predicate, for any non-empty keyword. -/
lemma containsWordL_iff {kw : List Char} (hkw : kw ≠ []) (cs : List Char) :
    containsWordL kw cs = true ↔ WordOccurs kw cs := by
  obtain ⟨k, ks, rfl⟩ : ∃ k ks, kw = k :: ks := by
    cases kw with
    | nil => exact absurd rfl hkw
    | cons k ks => exact ⟨k, ks, rfl⟩
  rw [containsWordL, scanAux_iff _ matchWordHere_nil_eq_false]
  constructor
  · rintro ⟨pre, suf, heq, hbk, hms⟩
    obtain ⟨mid, post, hsuf, hmap, hend⟩ := (matchWordHere_iff _ suf).mp hms
    exact ⟨pre, mid, post, by simp [heq, hsuf], hmap, hbk, hend⟩
  · rintro ⟨pre, mid, post, heq, hmap, hbk, hend⟩
    exact ⟨pre, mid ++ post, by simp [heq], hbk,
      (matchWordHere_iff _ _).mpr ⟨mid, post, rfl, hmap, hend⟩⟩

lemma startsCI_iff : ∀ (ks cs rest : List Char),
    startsCI ks cs = some rest ↔
      ∃ mid, cs = mid ++ rest ∧ mid.map Char.toUpper = ks.map Char.toUpper := by
  intro ks
  induction ks with
  | nil =>
      intro cs rest
      simp only [startsCI, Option.some.injEq]
      constructor
      · rintro rfl
        exact ⟨[], rfl, by simp⟩
      · rintro ⟨mid, heq, hmap⟩
        have : mid = [] := by simpa using List.map_eq_nil_iff.mp hmap
        subst this
        simpa using heq
  | cons k ks ih =>
      intro cs rest
      cases cs with
      | nil =>
          simp only [startsCI]
          constructor
          · intro h
            exact absurd h (by simp)
          · rintro ⟨mid, heq, hmap⟩
            have hmid : mid = [] := (List.append_eq_nil.mp heq.symm).1
            rw [hmid] at hmap
            simp at hmap
      | cons c cs' =>
          simp only [startsCI]
          by_cases h : c.toUpper = k.toUpper
          · rw [if_pos h, ih cs' rest]
            constructor
            · rintro ⟨mid, heq, hmap⟩
              exact ⟨c :: mid, by simp [heq], by simp [hmap, h]⟩
            · rintro ⟨mid, heq, hmap⟩
              cases mid with
              | nil => simp at hmap
              | cons d mid' =>
                  simp only [List.cons_append] at heq
                  have hd : d = c := ((List.cons.injEq .. ▸ heq).1).symm
                  subst hd
                  have hcs' : cs' = mid' ++ rest := (List.cons.injEq .. ▸ heq).2
                  simp only [List.map_cons] at hmap
                  exact ⟨mid', hcs', (List.cons.injEq .. ▸ hmap).2⟩
          · rw [if_neg h]
            constructor
            · intro hc
              exact absurd hc (by simp)
            · rintro ⟨mid, heq, hmap⟩
              cases mid with
              | nil => simp at hmap
              | cons d mid' =>
                  simp only [List.cons_append] at heq
                  have hd : d = c := ((List.cons.injEq .. ▸ heq).1).symm
                  simp only [List.map_cons] at hmap
                  have : d.toUpper = k.toUpper := (List.cons.injEq .. ▸ hmap).1
                  rw [hd] at this
                  exact absurd this h

lemma afterSpacesDigit_iff : ∀ cs : List Char,
    limitHere.afterSpacesDigit cs = true ↔
      ∃ sp d rest, cs = sp ++ d :: rest ∧
        (∀ c ∈ sp, isSpaceChar c = true) ∧ d.isDigit = true := by
  intro cs
  induction cs with
  | nil =>
      simp only [limitHere.afterSpacesDigit]
      constructor
      · intro h
        exact absurd h (by simp)
      · rintro ⟨sp, d, rest, heq, _, _⟩
        exact absurd ((List.append_eq_nil.mp heq.symm).2) (by simp)
  | cons c cs' ih =>
      simp only [limitHere.afterSpacesDigit, Bool.or_eq_true, Bool.and_eq_true]
      constructor
      · rintro (hdig | ⟨hsp, hrec⟩)
        · exact ⟨[], c, cs', rfl, by simp, hdig⟩
        · obtain ⟨sp, d, rest, heq, hall, hd⟩ := ih.mp hrec
          exact ⟨c :: sp, d, rest, by simp [heq], by simpa [hsp] using hall, hd⟩
      · rintro ⟨sp, d, rest, heq, hall, hd⟩
        cases sp with
        | nil =>
            left
            have : c = d := by simpa using (List.cons.injEq .. ▸ heq).1
            rwa [this]
        | cons s sp' =>
            right
            simp only [List.cons_append] at heq
            have hs : s = c := ((List.cons.injEq .. ▸ heq).1).symm
            have hcs' : cs' = sp' ++ d :: rest := (List.cons.injEq .. ▸ heq).2
            refine ⟨?_, ih.mpr ⟨sp', d, rest, hcs', fun x hx => hall x (by simp [hx]), hd⟩⟩
            have := hall s (by simp)
            rwa [hs] at this

lemma limitHere_iff (cs : List Char) :
    limitHere cs = true ↔
      ∃ kw sp d rest, cs = kw ++ sp ++ d :: rest ∧
        kw.map Char.toUpper = limitChars ∧
        sp ≠ [] ∧ (∀ c ∈ sp, isSpaceChar c = true) ∧ d.isDigit = true := by
  cases hstart : startsCI limitChars cs with
  | none =>
      simp only [limitHere, hstart]
      constructor
      · intro h
        exact absurd h (by simp)
      · rintro ⟨kw, sp, d, rest, heq, hkw, _, _, _⟩
        have : startsCI limitChars cs = some (sp ++ d :: rest) :=
          (startsCI_iff _ _ _).mpr ⟨kw, by simp [heq], by rw [hkw]; decide⟩
        rw [hstart] at this
        exact absurd this (by simp)
  | some rest0 =>
      obtain ⟨mid, hmid, hmidmap⟩ := (startsCI_iff _ _ _).mp hstart
      simp only [limitHere, hstart]
      cases rest0 with
      | nil =>
          constructor
          · intro h
            exact absurd h (by simp)
          · rintro ⟨kw, sp, d, rest, heq, hkw, _, _, _⟩
            have : startsCI limitChars cs = some (sp ++ d :: rest) :=
              (startsCI_iff _ _ _).mpr ⟨kw, by simp [heq], by rw [hkw]; decide⟩
            rw [hstart] at this
            have := (Option.some.injEq .. ▸ this)
            exact absurd this.symm (by simp)
      | cons c rest2 =>
          simp only [Bool.and_eq_true]
          constructor
          · rintro ⟨hsp, hafter⟩
            obtain ⟨sp', d, r, heq2, hall, hd⟩ := (afterSpacesDigit_iff rest2).mp hafter
            refine ⟨mid, c :: sp', d, r, ?_, by rw [hmidmap]; decide, by simp,
              by simpa [hsp] using hall, hd⟩
            simp [hmid, heq2]
          · rintro ⟨kw, sp, d, rest, heq, hkw, hspne, hall, hd⟩
            have hsome : startsCI limitChars cs = some (sp ++ d :: rest) :=
              (startsCI_iff _ _ _).mpr ⟨kw, by simp [heq], by rw [hkw]; decide⟩
            rw [hstart] at hsome
            have hrest : c :: rest2 = sp ++ d :: rest := Option.some.injEq .. ▸ hsome
            cases sp with
            | nil => exact absurd rfl hspne
            | cons s sp' =>
                simp only [List.cons_append] at hrest
                have hs : c = s := (List.cons.injEq .. ▸ hrest).1
                have hr2 : rest2 = sp' ++ d :: rest := (List.cons.injEq .. ▸ hrest).2
                refine ⟨by rw [hs]; exact hall s (by simp), ?_⟩
                exact (afterSpacesDigit_iff rest2).mpr
                  ⟨sp', d, rest, hr2, fun x hx => hall x (by simp [hx]), hd⟩

/-- The LIMIT-clause scanner agrees with the declarative occurrence
predicate. -/
lemma hasLimitL_iff (cs : List Char) : hasLimitL cs = true ↔ LimitOccurs cs := by
  rw [hasLimitL, scanAux_iff limitHere (by rfl)]
  constructor
  · rintro ⟨pre, suf, heq, hbk, hms⟩
    obtain ⟨kw, sp, d, rest, hsuf, hkw, hspne, hall, hd⟩ := (limitHere_iff suf).mp hms
    exact ⟨pre, kw, sp, d, rest, by simp [heq, hsuf], hkw, hspne, hall, hd, hbk⟩
  · rintro ⟨pre, kw, sp, d, post, heq, hkw, hspne, hall, hd, hbk⟩
    exact ⟨pre, kw ++ sp ++ d :: post, by simp [heq], hbk,
      (limitHere_iff _).mpr ⟨kw, sp, d, post, rfl, hkw, hspne, hall, hd⟩⟩

lemma getLast?_append_singleton (l : List Char) (a : Char) :
    (l ++ [a]).getLast? = some a := by
  induction l with
  | nil => rfl
  | cons c t ih => rw [List.cons_append, getLast?_cons_of_ne_nil c (by simp), ih]

/-- Appending the ten characters of a space and `LIMIT 100` always
produces a LIMIT-clause occurrence. -/
lemma limitOccurs_append (xs : List Char) : LimitOccurs (xs ++ limitSuffix) := by
  refine ⟨xs ++ [' '], limitChars, [' '], '1', ['0', '0'], ?_, by decide, by simp,
    by decide, by decide, ?_⟩
  · simp [limitSuffix, limitChars]
  · rw [BoundaryOkP, getLast?_append_singleton]
    decide

/-- The output of `_ensure_limit_clause` always carries a LIMIT clause. -/
lemma hasLimitL_ensureLimitL (cs : List Char) : hasLimitL (ensureLimitL cs) = true := by
  rw [ensureLimitL]
  by_cases h : hasLimitL cs
  · rwa [if_pos h]
  · rw [if_neg h]
    exact (hasLimitL_iff _).mpr (limitOccurs_append _)

lemma ensureLimitL_idem (cs : List Char) :
    ensureLimitL (ensureLimitL cs) = ensureLimitL cs := by
  conv_lhs => rw [ensureLimitL]
  rw [if_pos (hasLimitL_ensureLimitL cs)]

/-! ## Stripping preserves a LIMIT-clause occurrence -/

lemma dropWhile_append_ite (p : Char → Bool) (l₁ l₂ : List Char) :
    (l₁ ++ l₂).dropWhile p =
      if (l₁.dropWhile p).isEmpty then l₂.dropWhile p else l₁.dropWhile p ++ l₂ := by
  induction l₁ with
  | nil => simp
  | cons c t ih =>
      by_cases h : p c = true
      · simpa [List.dropWhile_cons, h] using ih
      · simp [List.dropWhile_cons, h]

lemma dropWhile_append_cons (p : Char → Bool) (pre : List Char) (k : Char)
    (tl : List Char) (hk : p k = false) :
    (pre ++ k :: tl).dropWhile p = pre.dropWhile p ++ k :: tl := by
  rw [dropWhile_append_ite]
  by_cases h : (pre.dropWhile p).isEmpty
  · rw [if_pos h, List.dropWhile_cons_of_neg (by simp [hk])]
    have he : pre.dropWhile p = [] := by simpa [List.isEmpty_iff] using h
    rw [he, List.nil_append]
  · rw [if_neg h]

lemma exists_dropWhile_suffix (p : Char → Bool) (l : List Char) :
    ∃ t, l = t ++ l.dropWhile p := by
  induction l with
  | nil => exact ⟨[], rfl⟩
  | cons c tl ih =>
      by_cases h : p c = true
      · obtain ⟨t, ht⟩ := ih
        refine ⟨c :: t, ?_⟩
        rw [List.dropWhile_cons_of_pos h, List.cons_append]
        exact congrArg (c :: ·) ht
      · exact ⟨[], by rw [List.dropWhile_cons_of_neg (by simp [h]), List.nil_append]⟩

lemma getLast?_append_of_ne_nil (a : List Char) {b : List Char} (hb : b ≠ []) :
    (a ++ b).getLast? = b.getLast? := by
  induction a with
  | nil => rfl
  | cons c t ih =>
      rw [List.cons_append,
        getLast?_cons_of_ne_nil c (fun hc => hb (List.append_eq_nil.mp hc).2), ih]

lemma boundaryOkP_of_getLast?_eq {pre₁ pre₂ : List Char} (prev : Option Char)
    (h : pre₁.getLast? = pre₂.getLast?) (hbk : BoundaryOkP prev pre₁) :
    BoundaryOkP prev pre₂ := by
  simp only [BoundaryOkP] at hbk ⊢
  rw [← h]
  exact hbk

lemma boundaryOkP_dropWhile {p : Char → Bool} {pre : List Char}
    (hbk : BoundaryOkP none pre) : BoundaryOkP none (pre.dropWhile p) := by
  cases hq : pre.dropWhile p with
  | nil => exact rfl
  | cons q qt =>
      have hne : pre.dropWhile p ≠ [] := by rw [hq]; simp
      obtain ⟨t, ht⟩ := exists_dropWhile_suffix p pre
      have hgl : pre.getLast? = (pre.dropWhile p).getLast? := by
        conv_lhs => rw [ht]
        exact getLast?_append_of_ne_nil t hne
      rw [← hq]
      exact boundaryOkP_of_getLast?_eq none hgl hbk

lemma isSpaceChar_cases {c : Char} (h : isSpaceChar c = true) :
    c = ' ' ∨ c = '\t' ∨ c = '\n' ∨ c = '\r' ∨ c = '\x0b' ∨ c = '\x0c' := by
  simp only [isSpaceChar, Bool.or_eq_true, beq_iff_eq] at h
  tauto

lemma isSpaceChar_eq_false_of_toUpper_L {c : Char} (h : c.toUpper = 'L') :
    isSpaceChar c = false := by
  rcases Bool.eq_false_or_eq_true (isSpaceChar c) with ht | hf
  · rcases isSpaceChar_cases ht with rfl | rfl | rfl | rfl | rfl | rfl <;>
      exact absurd h (by decide)
  · exact hf

lemma isSpaceChar_eq_false_of_isDigit {c : Char} (h : c.isDigit = true) :
    isSpaceChar c = false := by
  rcases Bool.eq_false_or_eq_true (isSpaceChar c) with ht | hf
  · rcases isSpaceChar_cases ht with rfl | rfl | rfl | rfl | rfl | rfl <;>
      exact absurd h (by decide)
  · exact hf

lemma limitOccurs_lstripL {cs : List Char} (h : LimitOccurs cs) :
    LimitOccurs (lstripL cs) := by
  obtain ⟨pre, kw, sp, d, post, heq, hkw, hspne, hall, hd, hbk⟩ := h
  obtain ⟨k, kw', rfl⟩ : ∃ k kw', kw = k :: kw' := by
    cases kw with
    | nil => simp [limitChars] at hkw
    | cons a b => exact ⟨a, b, rfl⟩
  have hkL : k.toUpper = 'L' := by
    simp only [List.map_cons, limitChars] at hkw
    exact (List.cons.injEq .. ▸ hkw).1
  have heq2 : cs = pre ++ k :: (kw' ++ sp ++ d :: post) := by simp [heq]
  rw [heq2, lstripL,
    dropWhile_append_cons _ _ _ _ (isSpaceChar_eq_false_of_toUpper_L hkL)]
  exact ⟨pre.dropWhile isSpaceChar, k :: kw', sp, d, post, by simp, hkw, hspne,
    hall, hd, boundaryOkP_dropWhile hbk⟩

lemma rstripL_append_cons (ys : List Char) {d : Char} (hd : isSpaceChar d = false)
    (post : List Char) : rstripL (ys ++ d :: post) = ys ++ d :: rstripL post := by
  have h1 : (ys ++ d :: post).reverse = post.reverse ++ d :: ys.reverse := by simp
  rw [rstripL, h1, dropWhile_append_cons _ _ _ _ hd]
  simp [rstripL]

lemma limitOccurs_rstripL {cs : List Char} (h : LimitOccurs cs) :
    LimitOccurs (rstripL cs) := by
  obtain ⟨pre, kw, sp, d, post, heq, hkw, hspne, hall, hd, hbk⟩ := h
  have heq2 : cs = (pre ++ kw ++ sp) ++ d :: post := by simp [heq]
  rw [heq2, rstripL_append_cons _ (isSpaceChar_eq_false_of_isDigit hd) _]
  exact ⟨pre, kw, sp, d, rstripL post, by simp, hkw, hspne, hall, hd, hbk⟩

lemma limitOccurs_stripL {cs : List Char} (h : LimitOccurs cs) :
    LimitOccurs (stripL cs) :=
  limitOccurs_rstripL (limitOccurs_lstripL h)

/-- The output of `_ensure_limit_clause` always carries a LIMIT-clause
occurrence. -/
lemma limitOccurs_ensureLimitL (cs : List Char) : LimitOccurs (ensureLimitL cs) := by
  rw [ensureLimitL]
  by_cases h : hasLimitL cs = true
  · rw [if_pos (by simp [h])]
    exact (hasLimitL_iff cs).mp h
  · rw [if_neg (by simp [h])]
    exact limitOccurs_append _

/-! ## Idempotence of stripping (needed for the chat input gate) -/

lemma dropWhile_idem (p : Char → Bool) (l : List Char) :
    (l.dropWhile p).dropWhile p = l.dropWhile p := by
  induction l with
  | nil => rfl
  | cons c t ih =>
      by_cases h : p c = true
      · rw [List.dropWhile_cons_of_pos h]
        exact ih
      · rw [List.dropWhile_cons_of_neg (by simp [h]),
          List.dropWhile_cons_of_neg (by simp [h])]

lemma dropWhile_length_le (p : Char → Bool) (l : List Char) :
    (l.dropWhile p).length ≤ l.length := by
  induction l with
  | nil => exact Nat.le_refl _
  | cons c t ih =>
      by_cases h : p c = true
      · rw [List.dropWhile_cons_of_pos h]
        exact Nat.le_succ_of_le ih
      · rw [List.dropWhile_cons_of_neg (by simp [h])]

lemma exists_rstripL_prefix (l : List Char) : ∃ tl, l = rstripL l ++ tl := by
  obtain ⟨t, ht⟩ := exists_dropWhile_suffix isSpaceChar l.reverse
  refine ⟨t.reverse, ?_⟩
  have h2 := congrArg List.reverse ht
  simpa [rstripL] using h2

lemma dropWhile_rstripL {l : List Char} (hl : l.dropWhile isSpaceChar = l) :
    (rstripL l).dropWhile isSpaceChar = rstripL l := by
  cases hq : rstripL l with
  | nil => rfl
  | cons q t =>
      obtain ⟨tl, htl⟩ := exists_rstripL_prefix l
      rw [hq] at htl
      have hpq : isSpaceChar q = false := by
        rcases Bool.eq_false_or_eq_true (isSpaceChar q) with ht' | hf
        · exfalso
          rw [htl, List.cons_append, List.dropWhile_cons_of_pos ht'] at hl
          have hlen := congrArg List.length hl
          have hle := dropWhile_length_le isSpaceChar (t ++ tl)
          simp only [List.length_cons] at hlen
          omega
        · exact hf
      rw [List.dropWhile_cons_of_neg (by simp [hpq])]

lemma rstripL_idem (l : List Char) : rstripL (rstripL l) = rstripL l := by
  rw [rstripL, rstripL, List.reverse_reverse, dropWhile_idem]

lemma stripL_idem (l : List Char) : stripL (stripL l) = stripL l := by
  have hl : (lstripL l).dropWhile isSpaceChar = lstripL l := by
    rw [lstripL]
    exact dropWhile_idem isSpaceChar l
  have h1 : lstripL (rstripL (lstripL l)) = rstripL (lstripL l) := by
    rw [lstripL]
    exact dropWhile_rstripL hl
  rw [stripL, stripL, h1, rstripL_idem]

lemma pyStrip_idem (s : String) : pyStrip (pyStrip s) = pyStrip s :=
  congrArg String.mk (stripL_idem s.data)

/-! # Claim theorems and witnesses -/

/-! ## Claim theorems about the Limit Enforcer and the deny-list scanner -/

/-- Claim C6: `_ensure_limit_clause` is idempotent — applying it twice
yields the same text as applying it once. -/
theorem ensure_limit_clause_idempotent (s : String) :
    ensure_limit_clause (ensure_limit_clause s) = ensure_limit_clause s :=
  congrArg String.mk (ensureLimitL_idem s.data)

/-- Claim C5: if the text already contains a `LIMIT <n>` clause
(case-insensitive, any value of `n`), `_ensure_limit_clause` returns it
unchanged; otherwise it returns the text with every trailing semicolon
removed and the suffix a space plus `LIMIT 100` appended. -/
theorem ensure_limit_clause_spec (s : String) :
    (LimitOccurs s.data → ensure_limit_clause s = s) ∧
    (¬ LimitOccurs s.data →
      ensure_limit_clause s = pyRstripSemi s ++ " LIMIT 100") := by
  constructor
  · intro h
    have hb : hasLimitL s.data = true := (hasLimitL_iff _).mpr h
    rw [ensure_limit_clause, ensureLimitL, if_pos hb]
  · intro h
    have hb : ¬ hasLimitL s.data = true := fun ht => h ((hasLimitL_iff _).mp ht)
    rw [ensure_limit_clause, ensureLimitL, if_neg hb]
    rfl

/-- Witness for claim C5, exercising both branches; the first input keeps
its existing `LIMIT 5000` (a value above the configured maximum),
confirming the non-clamping behaviour. -/
theorem ensure_limit_clause_spec_witness :
    ensure_limit_clause "SELECT 1 LIMIT 5000" = "SELECT 1 LIMIT 5000" ∧
    ensure_limit_clause "SELECT 2" = pyRstripSemi "SELECT 2" ++ " LIMIT 100" :=
  ⟨(ensure_limit_clause_spec "SELECT 1 LIMIT 5000").1
      ((hasLimitL_iff _).mp (by decide)),
   (ensure_limit_clause_spec "SELECT 2").2
      (fun h => absurd ((hasLimitL_iff _).mpr h) (by decide))⟩

/-- Claim C3: `_contains_dangerous_keywords` returns true exactly when
one of the 24 deny-listed keywords occurs in the text as a whole word,
case-insensitively; in particular the identifier `created_at`, which
contains CREATE only as a proper substring, does not match. -/
theorem contains_dangerous_keywords_iff :
    (∀ s : String, contains_dangerous_keywords s = true ↔
        ∃ kw ∈ dangerousKeywords, WordOccurs kw.data s.data) ∧
    contains_dangerous_keywords "SELECT id, created_at FROM users" = false := by
  have hne : ∀ kw ∈ dangerousKeywords, kw.data ≠ [] := by decide
  constructor
  · intro s
    rw [contains_dangerous_keywords, List.any_eq_true]
    constructor
    · rintro ⟨kw, hmem, hkw⟩
      exact ⟨kw, hmem, (containsWordL_iff (hne kw hmem) _).mp hkw⟩
    · rintro ⟨kw, hmem, hkw⟩
      exact ⟨kw, hmem, (containsWordL_iff (hne kw hmem) _).mpr hkw⟩
  · decide

/-- Claim C2, counterexample: `sanitize_sql` accepts a query whose
existing LIMIT clause exceeds the configured maximum of 100 and returns
it with the clause intact — the sanitized output does not carry a LIMIT
value at most 100. -/
theorem sanitize_sql_limit_counterexample :
    sanitize_sql "SELECT 1 LIMIT 500" = some "SELECT 1 LIMIT 500" ∧
    limitExceeds 100 "SELECT 1 LIMIT 500" = true :=
  ⟨by rfl, by rfl⟩

/-- Claim C2, amended: every accepted query's sanitized text carries a
`LIMIT <n>` clause for some `n` (the enforcer appends ` LIMIT 100` when
none is present but does not clamp an existing value). -/
theorem sanitize_sql_has_limit_clause (s t : String)
    (h : sanitize_sql s = some t) : LimitOccurs t.data := by
  rw [sanitize_sql] at h
  split at h
  · exact absurd h (by simp)
  · split at h
    · exact absurd h (by simp)
    · split at h
      · exact absurd h (by simp)
      · have ht : t = ⟨stripL (ensureLimitL (formatSqlL s.data))⟩ :=
          (Option.some.injEq .. ▸ h).symm
        rw [ht]
        exact limitOccurs_stripL (limitOccurs_ensureLimitL _)

/-- Witness for the amended claim C2: the accepted query `SELECT 1` gains
the appended clause `LIMIT 100`. -/
theorem sanitize_sql_has_limit_clause_witness :
    LimitOccurs ("SELECT 1 LIMIT 100" : String).data :=
  sanitize_sql_has_limit_clause "SELECT 1" "SELECT 1 LIMIT 100" (by rfl)

/-! ## Claim theorems: the chat gate, threat scanner, tokens, execution -/

/-- Claim C1 (failing-input evaluation): `sanitize_sql` accepts the
two-statement text `SELECT 1; SELECT 2` — whose first parsed statement
is SELECT and which contains no deny-listed keyword — and returns both
statements to the execution layer, although the text does not parse as a
single statement. -/
theorem sanitize_sql_accepts_two_statements :
    sanitize_sql "SELECT 1; SELECT 2" = some "SELECT 1; SELECT 2 LIMIT 100" ∧
    statementCount "SELECT 1; SELECT 2" = 2 ∧
    statementCount "SELECT 1; SELECT 2 LIMIT 100" = 2 :=
  ⟨by rfl, by rfl, by rfl⟩

/-- Claim C4, counterexample: the chat pipeline's input gate
(`validate_input` of utils.py) accepts the message
`select * from customers`, which the Input Threat Scanner's validate
flags as a SQL-injection pattern (bare keyword `select`) — so a message
rejected by the scanner does reach the LLM. -/
theorem chat_gate_scanner_counterexample :
    chat_accepts_message "select * from customers" = true ∧
    (security_validate_input "select * from customers" 1000).valid = false :=
  ⟨by rfl, by rfl⟩

/-- Claim C4, amended: every chat message that reaches the LLM
translator has passed `validate_input` of utils.py — its stripped text
is non-empty, at most 1000 characters, and free of the four dangerous
patterns of that gate — but it need not pass the Input Threat Scanner's
SQL-injection patterns. -/
theorem chat_gate_guarantees (raw : String) (h : chat_accepts_message raw = true) :
    1 ≤ (pyStrip raw).length ∧ (pyStrip raw).length ≤ 1000 ∧
    dangerous_pattern_hit (pyStrip raw) = false := by
  rw [chat_accepts_message] at h
  simp only [validate_input] at h
  rw [pyStrip_idem] at h
  by_cases he : (pyStrip raw).isEmpty = true
  · rw [if_pos he] at h
    exact absurd h (by simp)
  · rw [if_neg he] at h
    by_cases hc : (pyStrip raw).length = 0 ∨ (pyStrip raw).length > 1000
    · rw [if_pos hc] at h
      exact absurd h (by simp)
    · rw [if_neg hc] at h
      push_neg at hc
      obtain ⟨hc1, hc2⟩ := hc
      refine ⟨by omega, by omega, by simpa using h⟩

/-- Witness for the amended claim C4 at an ordinary question. -/
theorem chat_gate_guarantees_witness :
    1 ≤ (pyStrip "What were total sales last year?").length ∧
    (pyStrip "What were total sales last year?").length ≤ 1000 ∧
    dangerous_pattern_hit (pyStrip "What were total sales last year?") = false :=
  chat_gate_guarantees "What were total sales last year?" (by rfl)

/-- Claim C7, counterexample: on an input matching both a SQL-injection
pattern and an XSS pattern, the scanner's validate emits two warnings —
the XSS check still runs after the SQL-injection check has already
failed the input, so validation does not short-circuit on the first
failing step. -/
theorem security_validate_two_warnings :
    (security_validate_input "select onload=1" 1000).warnings =
      [sqlWarning, xssWarning] ∧
    (security_validate_input "select onload=1" 1000).warnings.length = 2 :=
  ⟨by rfl, by rfl⟩

/-- Claim C7, amended: only the length check short-circuits (an
over-long input returns immediately with exactly the length warning);
the SQL-injection and XSS checks both run, each contributing at most one
warning, so the warnings sequence has at most two entries, and the
result is valid exactly when it is warning-free. -/
theorem security_validate_warning_structure (s : String) (n : Nat) :
    ((security_validate_input s n).valid = true ↔
      (security_validate_input s n).warnings = []) ∧
    (security_validate_input s n).warnings.length ≤ 2 ∧
    (s.length > n → (security_validate_input s n).warnings = [lengthWarning n]) := by
  by_cases hlen : s.length > n
  · refine ⟨?_, ?_, fun _ => ?_⟩ <;> simp [security_validate_input, hlen]
  · refine ⟨?_, ?_, fun hcontra => absurd hcontra hlen⟩ <;>
      cases hs : sql_injection_hit s <;> cases hx : xss_hit s <;>
        simp [security_validate_input, hlen, hs, hx]

/-- Witness for the amended claim C7: an over-long input gets exactly
the length warning. -/
theorem security_validate_warning_structure_witness :
    (security_validate_input "abcd" 3).warnings = [lengthWarning 3] :=
  (security_validate_warning_structure "abcd" 3).2.2 (by decide)

/-- Claim C8: session-token validation fails on any token whose expiry
lies in the past even when its signature is valid, and on any token with
a tampered signature regardless of the claimed expiry. -/
theorem validate_session_token_rejects (now : Int) (t : SessionToken) :
    (t.payload.exp < now → validate_session_token now t = none) ∧
    (t.sigValid = false → validate_session_token now t = none) := by
  constructor
  · intro h
    rw [validate_session_token, jwtDecode]
    by_cases hs : t.sigValid = true
    · rw [if_neg (by simp [hs]), if_pos (le_of_lt h)]
    · rw [if_pos (by simp [Bool.not_eq_true] at hs ⊢; exact hs)]
  · intro h
    rw [validate_session_token, jwtDecode, if_pos (by simp [h])]

/-- Witness for claim C8: an expired but correctly signed token and a
tampered unexpired token are both rejected. -/
theorem validate_session_token_rejects_witness :
    validate_session_token 1000
      { payload := { user_id := "u", iat := 0, exp := 500, session_id := "s" }
        sigValid := true } = none ∧
    validate_session_token 0
      { payload := { user_id := "u", iat := 0, exp := 999999, session_id := "s" }
        sigValid := false } = none :=
  ⟨(validate_session_token_rejects 1000 _).1 (by decide),
   (validate_session_token_rejects 0 _).2 (by rfl)⟩

/-- Claim C9: `execute_query` converts any driver-level error into the
sentinel `none` instead of raising, returns the zipped rows on success,
and the sentinel is distinct from the empty row list — which the chat
route uses to distinguish execution failure from zero results. -/
theorem execute_query_error_handling :
    (∀ (α : Type) (e : String), execute_query (DriverOutcome.err (α := α) e) = none) ∧
    (∀ (α : Type) (cols : List String) (rows : List (List α)),
      execute_query (DriverOutcome.ok cols rows) =
        some (rows.map (fun row => cols.zip row))) ∧
    (∀ α : Type, (none : Option (List (List (String × α)))) ≠ some []) ∧
    (∀ (α : Type) (e : String),
      chat_execute_step (DriverOutcome.err (α := α) e) =
        Except.error "Failed to execute database query.") ∧
    (∀ (α : Type) (cols : List String),
      chat_execute_step (DriverOutcome.ok cols ([] : List (List α))) = Except.ok []) :=
  ⟨fun _ _ => rfl, fun _ _ _ => rfl, fun _ h => Option.noConfusion h,
   fun _ _ => rfl, fun _ _ => rfl⟩

/-- Claim C10: whenever the scanner's validate rejects an input — for
length, SQL-injection or XSS — the sanitized field of the result is the
trimmed original input with no characters removed; the angle-bracket and
quote stripping applies only to accepted inputs. -/
theorem security_validate_invalid_sanitized (s : String) (n : Nat)
    (h : (security_validate_input s n).valid = false) :
    (security_validate_input s n).sanitized = pyStrip s := by
  by_cases hlen : s.length > n
  · simp [security_validate_input, hlen]
  · rw [security_validate_input, if_neg hlen] at h ⊢
    cases hs : sql_injection_hit s <;> cases hx : xss_hit s <;> simp_all

/-- Witness for claim C10: the rejected script payload keeps its angle
brackets in the sanitized field. -/
theorem security_validate_invalid_sanitized_witness :
    (security_validate_input "<script>alert(1)</script>" 1000).sanitized =
      pyStrip "<script>alert(1)</script>" ∧
    pyStrip "<script>alert(1)</script>" = "<script>alert(1)</script>" :=
  ⟨security_validate_invalid_sanitized "<script>alert(1)</script>" 1000 (by rfl),
   by rfl⟩
